import Mathlib

set_option maxRecDepth 100000

/-!
Shallow embedding of src/app/src/lib/git/for-each-ref.ts.

Strings are modelled as `List Char`.  The JavaScript one-character
`String.prototype.split` is modelled by `splitChar`; indexing past the end of
the split pieces (JavaScript undefined) is modelled by `piece`, which returns
the empty string; and the two exported async functions become pure functions
over a `GitResult` record holding the stdout text and the optional recognised
git error of the underlying for-each-ref invocation.
-/

def nulChar : Char := Char.ofNat 0

def delimChar : Char := Char.ofNat 31

def newlineChar : Char := Char.ofNat 10

/-- Ref-path test string used by both pipelines: the source checks
`ref.startsWith("refs/head")`, nine characters, without a trailing s. -/
def localRefPfx : List Char := "refs/head".toList

/-- JavaScript split with a one-character separator: the result always has one
more piece than the number of separator occurrences, so splitting the empty
string yields one empty piece. -/
def splitChar (sep : Char) : List Char → List (List Char)
  | [] => [[]]
  | c :: rest =>
    if c = sep then [] :: splitChar sep rest
    else
      match splitChar sep rest with
      | [] => [[c]]
      | h :: t => (c :: h) :: t

/-- Reading position i of the split pieces; out of range gives the empty
string. -/
def piece (pieces : List (List Char)) (i : Nat) : List Char :=
  pieces.getD i []

/-- For every record except the first the source strips one leading character
(the newline that follows the previous record sentinel) before
field-splitting. -/
def cleanLines : List (List Char) → List (List Char)
  | [] => []
  | l :: rest => l :: rest.map (List.drop 1)

/-- Cleaned records of one getBranches response: split the stdout on the
record sentinel, discard the final split segment, strip the leading artifact
of every record but the first. -/
def cleanedRecords (stdout : List Char) : List (List Char) :=
  cleanLines ((splitChar delimChar stdout).dropLast)

structure CommitIdentity where
  name : List Char
  email : List Char
  date : List Char
  deriving DecidableEq

inductive BranchType where
  | Local
  | Remote
  deriving DecidableEq, BEq

structure BranchTip where
  sha : List Char
  author : CommitIdentity
  deriving DecidableEq

structure Branch where
  name : List Char
  upstream : Option (List Char)
  tip : BranchTip
  type : BranchType
  deriving DecidableEq

inductive GitError where
  | NotAGitRepository
  deriving DecidableEq

structure GitResult where
  stdout : List Char
  gitError : Option GitError
  deriving DecidableEq

/-- Modelled from the spec: CommitIdentity.parseIdentity lives in
app/src/models/commit-identity.ts, which is not among the sources given here.
Per the spec an identity field decodes into name, email and timestamp from one
compact sub-string (the name, then the email between angle brackets, then the
timestamp), and malformed or empty input fails to parse.  The theorems about
the listing pipeline quantify over an arbitrary parse function; this concrete
model is used only to build witnesses and counterexamples. -/
def parseIdentitySpec (s : List Char) : Option CommitIdentity :=
  match splitChar (Char.ofNat 60) s with
  | [namePart, rest] =>
    match splitChar (Char.ofNat 62) rest with
    | [emailPart, datePart] =>
      some { name := namePart, email := emailPart, date := datePart }
    | _ => none
  | _ => none

def apos : Char := Char.ofNat 39

/-- Error text thrown when the author identity fails to parse; it quotes the
short object id of the offending record. -/
def authorErrMsg (shortSha : List Char) : List Char :=
  "Couldn".toList ++ [apos] ++ "t parse author identity for ".toList
    ++ [apos] ++ shortSha ++ [apos]

/-- Error text thrown when the committer identity fails to parse; it quotes
the short object id of the offending record. -/
def committerErrMsg (shortSha : List Char) : List Char :=
  "Couldn".toList ++ [apos] ++ "t parse committer identity for ".toList
    ++ [apos] ++ shortSha ++ [apos]

/-- Loop body of getBranches for one cleaned record: split on the NUL field
separator, parse author and committer (either failure aborts), then skip
symbolic refs, otherwise build the Branch in the order the source does. -/
def processRecord (parseIdentity : List Char → Option CommitIdentity)
    (line : List Char) : Except (List Char) (Option Branch) :=
  let pieces := splitChar nulChar line
  let ref := piece pieces 0
  let name := piece pieces 1
  let upstream := piece pieces 2
  let sha := piece pieces 3
  let shortSha := piece pieces 4
  match parseIdentity (piece pieces 5) with
  | none => .error (authorErrMsg shortSha)
  | some author =>
    match parseIdentity (piece pieces 6) with
    | none => .error (committerErrMsg shortSha)
    | some _ =>
      let symref := piece pieces 7
      let branchTip : BranchTip := { sha := sha, author := author }
      let type :=
        if localRefPfx.isPrefixOf ref then BranchType.Local else BranchType.Remote
      if 0 < symref.length then .ok none
      else
        .ok (some { name := name
                    upstream := if 0 < upstream.length then some upstream else none
                    tip := branchTip
                    type := type })

/-- The for-loop of getBranches over the cleaned records: the first parse
failure aborts the whole run, otherwise non-symbolic records accumulate in
order. -/
def collectBranches (parseIdentity : List Char → Option CommitIdentity) :
    List (List Char) → Except (List Char) (List Branch)
  | [] => .ok []
  | l :: rest =>
    match processRecord parseIdentity l with
    | .error e => .error e
    | .ok b? =>
      match collectBranches parseIdentity rest with
      | .error e => .error e
      | .ok bs => .ok (match b? with | none => bs | some b => b :: bs)

/-- getBranches, as a function of the for-each-ref result.  The
NotAGitRepository error kind short-circuits to the empty list; otherwise the
stdout is split on the 0x1F sentinel, the trailing segment dropped, and the
records processed in order. -/
def getBranches (parseIdentity : List Char → Option CommitIdentity)
    (result : GitResult) : Except (List Char) (List Branch) :=
  if result.gitError = some GitError.NotAGitRepository then .ok []
  else
    let lines := (splitChar delimChar result.stdout).dropLast
    if lines.length = 0 then .ok []
    else collectBranches parseIdentity (cleanLines lines)

structure LocalCandidate where
  name : List Char
  ref : List Char
  sha : List Char
  upstream : List Char
  deriving DecidableEq

abbrev RemoteShaIndex := List (List Char × List Char)

def starMark : List Char := ['*']

/-- First-pass loop body of getBranchesDifferingFromUpstream: skip symbolic
refs and the current checkout, retain local records with an upstream as
candidates, index every other record by ref path (later entries shadow
earlier ones, like Map.set). -/
def partitionStep (st : List LocalCandidate × RemoteShaIndex)
    (line : List Char) : List LocalCandidate × RemoteShaIndex :=
  let pieces := splitChar nulChar line
  let ref := piece pieces 0
  let name := piece pieces 1
  let sha := piece pieces 2
  let upstream := piece pieces 3
  let symref := piece pieces 4
  let head := piece pieces 5
  if 0 < symref.length ∨ head = starMark then st
  else if localRefPfx.isPrefixOf ref then
    if upstream.length = 0 then st
    else (st.1 ++ [{ name := name, ref := ref, sha := sha, upstream := upstream }], st.2)
  else
    (st.1, (ref, sha) :: st.2)

/-- Second pass of getBranchesDifferingFromUpstream: a candidate name is
eligible when the remote index holds its upstream ref path with a SHA
different from its own; a missing lookup contributes nothing. -/
def eligibleNames (localBranches : List LocalCandidate)
    (remoteBranchShas : RemoteShaIndex) : List (List Char) :=
  localBranches.filterMap fun branch =>
    match List.lookup branch.upstream remoteBranchShas with
    | some remoteSha => if remoteSha ≠ branch.sha then some branch.name else none
    | none => none

/-- The divergent-name set computed by getBranchesDifferingFromUpstream from
the for-each-ref result (empty on the short-circuit paths). -/
def divergentNames (result : GitResult) : List (List Char) :=
  if result.gitError = some GitError.NotAGitRepository then []
  else
    let lines := (splitChar newlineChar result.stdout).dropLast
    if lines.length = 0 then []
    else
      let st := lines.foldl partitionStep ([], [])
      eligibleNames st.1 st.2

/-- getBranchesDifferingFromUpstream, as a function of the for-each-ref
result and the caller-supplied list of all known branches. -/
def getBranchesDifferingFromUpstream (result : GitResult)
    (allBranches : List Branch) : List Branch :=
  if result.gitError = some GitError.NotAGitRepository then []
  else
    let lines := (splitChar newlineChar result.stdout).dropLast
    if lines.length = 0 then []
    else
      let st := lines.foldl partitionStep ([], [])
      let names := eligibleNames st.1 st.2
      if names = [] then []
      else
        allBranches.filter fun branch =>
          branch.type == BranchType.Local && names.contains branch.name

/-- Whether a cleaned record of the listing pipeline has a non-empty
symbolic-ref field (8th field). -/
def hasSymref (line : List Char) : Bool :=
  !(piece (splitChar nulChar line) 7).isEmpty

/-- The parse-failure outcome of one cleaned record: the error message the
record would abort with, or none when both identities parse. -/
def recordParseFailure (parseIdentity : List Char → Option CommitIdentity)
    (line : List Char) : Option (List Char) :=
  let pieces := splitChar nulChar line
  let shortSha := piece pieces 4
  match parseIdentity (piece pieces 5) with
  | none => some (authorErrMsg shortSha)
  | some _ =>
    match parseIdentity (piece pieces 6) with
    | none => some (committerErrMsg shortSha)
    | some _ => none

/-- Join a list of fields with a one-character separator, mirroring how the
format string interleaves the fields with the %00 separator. -/
def sepJoin (sep : Char) : List (List Char) → List Char
  | [] => []
  | [f] => f
  | f :: rest => f ++ sep :: sepJoin sep rest

/-- Body of one listing record as for-each-ref emits it before the sentinel:
the eight fields joined by NUL, plus the NUL that the format string places
between the last field and the sentinel. -/
def listerBody (fields : List (List Char)) : List Char :=
  sepJoin nulChar fields ++ [nulChar]

/-- Wire format of a full getBranches response (section 6 of the spec): each
record body is followed by the 0x1F sentinel and the newline for-each-ref
prints after every record. -/
def encodeListerOutput (records : List (List (List Char))) : List Char :=
  (records.map fun fields => listerBody fields ++ [delimChar, newlineChar]).flatten

/-- Wire format of one divergence-detector line: the six fields joined by
NUL (newline is the record separator there). -/
def encodeDetectorLine (fields : List (List Char)) : List Char :=
  sepJoin nulChar fields

/-- Wire format of a full getBranchesDifferingFromUpstream response: each
line followed by a newline. -/
def encodeDetectorOutput (records : List (List (List Char))) : List Char :=
  (records.map fun fields => encodeDetectorLine fields ++ [newlineChar]).flatten

/-- Concrete author and committer field, parseable by `parseIdentitySpec`. -/
def identA : List Char := "Alice <alice@example.com> 1700000000 +0000".toList

/-- The identity `parseIdentitySpec` extracts from `identA`. -/
def identAVal : CommitIdentity :=
  { name := "Alice ".toList
    email := "alice@example.com".toList
    date := " 1700000000 +0000".toList }

/-- An ordinary local-branch record for the listing pipeline. -/
def recMain : List (List Char) :=
  ["refs/heads/main".toList, "main".toList, [], "aaa1".toList, "aaa1".toList,
   identA, identA, []]

/-- A second ordinary local-branch record. -/
def recDev : List (List Char) :=
  ["refs/heads/dev".toList, "dev".toList, "origin/dev".toList, "bbb2".toList,
   "bbb2".toList, identA, identA, []]

/-- A symbolic-ref record (non-empty 8th field). -/
def recSym : List (List Char) :=
  ["refs/remotes/origin/HEAD".toList, "origin/HEAD".toList, [], "ccc3".toList,
   "ccc3".toList, identA, identA, "refs/remotes/origin/main".toList]

/-- A record whose ref path starts with refs/head but not refs/heads. -/
def recHeadx : List (List Char) :=
  ["refs/headx/foo".toList, "foo".toList, [], "ddd4".toList, "ddd4".toList,
   identA, identA, []]

/-- A record whose author identity field does not parse. -/
def recBadAuthor : List (List Char) :=
  ["refs/heads/bad".toList, "bad".toList, [], "eee5".toList, "eee5".toList,
   "garbage".toList, identA, []]

/-- A symbolic-ref record whose author identity field does not parse. -/
def recSymBadAuthor : List (List Char) :=
  ["refs/remotes/origin/HEAD".toList, "origin/HEAD".toList, [], "fff6".toList,
   "fff6".toList, "garbage".toList, "garbage".toList,
   "refs/remotes/origin/main".toList]

/-- The Branch that `getBranches` builds from `recMain`. -/
def branchMain : Branch :=
  { name := "main".toList
    upstream := none
    tip := { sha := "aaa1".toList, author := identAVal }
    type := BranchType.Local }

/-- The Branch that `getBranches` builds from `recDev`. -/
def branchDev : Branch :=
  { name := "dev".toList
    upstream := some "origin/dev".toList
    tip := { sha := "bbb2".toList, author := identAVal }
    type := BranchType.Local }

/-- Detector record for the remote-tracking ref of feature, at SHA bbbb. -/
def detRemoteFeature : List (List Char) :=
  ["refs/remotes/origin/feature".toList, "origin/feature".toList,
   "bbbb".toList, [], [], " ".toList]

/-- Detector record for the local branch feature, at SHA aaaa, with upstream
refs/remotes/origin/feature. -/
def detLocalFeature : List (List Char) :=
  ["refs/heads/feature".toList, "feature".toList, "aaaa".toList,
   "refs/remotes/origin/feature".toList, [], " ".toList]

/-- Detector record marked as the current checkout (HEAD field is a star). -/
def detCurrent : List (List Char) :=
  ["refs/heads/current".toList, "current".toList, "cccc".toList,
   "refs/remotes/origin/current".toList, [], "*".toList]

/-- Detector record for a local branch with an empty upstream field. -/
def detNoUpstream : List (List Char) :=
  ["refs/heads/lonely".toList, "lonely".toList, "dddd".toList, [], [],
   " ".toList]

/-- A known Branch matching the local feature record, as the caller of the
divergence detector would supply it. -/
def branchFeature : Branch :=
  { name := "feature".toList
    upstream := some "origin/feature".toList
    tip := { sha := "aaaa".toList, author := identAVal }
    type := BranchType.Local }

/-! Lemmas about `splitChar` and `sepJoin`. -/

theorem splitChar_ne_nil (sep : Char) (l : List Char) : splitChar sep l ≠ [] := by
  induction l with
  | nil => simp [splitChar]
  | cons c rest ih =>
    simp only [splitChar]
    split
    · simp
    · cases h : splitChar sep rest <;> simp

theorem splitChar_append_not_mem (sep : Char) {l : List Char} (r : List Char)
    (h : sep ∉ l) :
    splitChar sep (l ++ r) = (splitChar sep r).modifyHead (fun s => l ++ s) := by
  induction l with
  | nil =>
    cases h' : splitChar sep r <;> simp [List.modifyHead, h']
  | cons c l ih =>
    have hc : ¬(c = sep) := fun e => h (by simp [e])
    have hl : sep ∉ l := fun m => h (by simp [m])
    cases h' : splitChar sep r with
    | nil => exact absurd h' (splitChar_ne_nil sep r)
    | cons a t =>
      simp [splitChar, hc, ih hl, h', List.modifyHead]

theorem splitChar_of_not_mem (sep : Char) {l : List Char} (h : sep ∉ l) :
    splitChar sep l = [l] := by
  have := splitChar_append_not_mem sep [] h
  simpa [splitChar, List.modifyHead] using this

theorem splitChar_append_sep_cons (sep : Char) {l : List Char} (r : List Char)
    (h : sep ∉ l) :
    splitChar sep (l ++ sep :: r) = l :: splitChar sep r := by
  rw [splitChar_append_not_mem sep (sep :: r) h]
  simp [splitChar, List.modifyHead]

theorem sepJoin_subset (sep : Char) (c : Char) :
    ∀ fs : List (List Char), c ∈ sepJoin sep fs → c = sep ∨ ∃ f ∈ fs, c ∈ f := by
  intro fs
  induction fs with
  | nil => simp [sepJoin]
  | cons f rest ih =>
    cases rest with
    | nil =>
      intro hc
      exact Or.inr ⟨f, by simp, by simpa [sepJoin] using hc⟩
    | cons g t =>
      intro hc
      simp only [sepJoin] at hc
      rcases List.mem_append.mp hc with hf | hrest
      · exact Or.inr ⟨f, by simp, hf⟩
      · rcases List.mem_cons.mp hrest with rfl | hmem
        · exact Or.inl rfl
        · rcases ih hmem with hs | ⟨f2, hf2, hcf2⟩
          · exact Or.inl hs
          · exact Or.inr ⟨f2, by simp [hf2], hcf2⟩

theorem splitChar_sepJoin (sep : Char) :
    ∀ fs : List (List Char), fs ≠ [] → (∀ f ∈ fs, sep ∉ f) →
      splitChar sep (sepJoin sep fs) = fs := by
  intro fs
  induction fs with
  | nil => intro h; exact absurd rfl h
  | cons f rest ih =>
    intro _ hmem
    cases rest with
    | nil => simpa [sepJoin] using splitChar_of_not_mem sep (hmem f (by simp))
    | cons g t =>
      simp only [sepJoin]
      rw [splitChar_append_sep_cons sep _ (hmem f (by simp))]
      rw [ih (by simp) (fun x hx => hmem x (by simp [hx]))]

theorem sepJoin_append_empty (sep : Char) :
    ∀ fs : List (List Char), fs ≠ [] →
      sepJoin sep fs ++ [sep] = sepJoin sep (fs ++ [[]]) := by
  intro fs
  induction fs with
  | nil => intro h; exact absurd rfl h
  | cons f rest ih =>
    intro _
    cases rest with
    | nil => simp [sepJoin]
    | cons g t =>
      simp only [sepJoin, List.cons_append, List.append_assoc]
      rw [ih (by simp)]
      rfl

/-- Splitting one record body on the NUL field separator recovers the fields
followed by one empty trailing segment (the format string places a NUL
between the last field and the record sentinel). -/
theorem splitChar_listerBody (fields : List (List Char)) (hne : fields ≠ [])
    (h : ∀ f ∈ fields, nulChar ∉ f) :
    splitChar nulChar (listerBody fields) = fields ++ [[]] := by
  unfold listerBody
  rw [sepJoin_append_empty nulChar fields hne]
  refine splitChar_sepJoin nulChar _ (by simp [hne]) ?_
  intro f hf
  rcases List.mem_append.mp hf with hmem | hmem
  · exact h f hmem
  · simp at hmem
    simp [hmem]

theorem delim_not_mem_listerBody (fields : List (List Char))
    (h : ∀ f ∈ fields, delimChar ∉ f) : delimChar ∉ listerBody fields := by
  intro hmem
  unfold listerBody at hmem
  rcases List.mem_append.mp hmem with hj | hn
  · rcases sepJoin_subset nulChar delimChar fields hj with he | ⟨f, hf, hcf⟩
    · exact absurd he (by decide)
    · exact h f hf hcf
  · simp at hn
    exact absurd hn (by decide)

/-- The split segments of a full listing response: the first record body,
every later record body with the leading newline artifact, and the trailing
newline segment. -/
def listerSegments : List (List (List Char)) → List (List Char)
  | [] => [[]]
  | r :: rest =>
    listerBody r :: (rest.map fun r2 => newlineChar :: listerBody r2) ++ [[newlineChar]]

theorem splitChar_encodeListerOutput :
    ∀ records : List (List (List Char)),
      (∀ fields ∈ records, ∀ f ∈ fields, delimChar ∉ f) →
      splitChar delimChar (encodeListerOutput records) = listerSegments records := by
  intro records
  induction records with
  | nil => intro _; simp [encodeListerOutput, listerSegments, splitChar]
  | cons r rest ih =>
    intro h
    have hbody : delimChar ∉ listerBody r :=
      delim_not_mem_listerBody r (h r (by simp))
    have hstep :
        encodeListerOutput (r :: rest) =
          listerBody r ++ delimChar :: (newlineChar :: encodeListerOutput rest) := by
      simp [encodeListerOutput]
    rw [hstep, splitChar_append_sep_cons delimChar _ hbody]
    have hnl : delimChar ∉ [newlineChar] := by decide
    have hcons :
        (newlineChar :: encodeListerOutput rest) =
          [newlineChar] ++ encodeListerOutput rest := rfl
    rw [hcons, splitChar_append_not_mem delimChar _ hnl]
    rw [ih (fun fs hfs => h fs (by simp [hfs]))]
    cases rest with
    | nil => simp [listerSegments, List.modifyHead]
    | cons r2 t => simp [listerSegments, List.modifyHead]

/-- A well-formed listing response cleans to exactly the record bodies. -/
theorem cleanedRecords_encodeListerOutput (records : List (List (List Char)))
    (h : ∀ fields ∈ records, ∀ f ∈ fields, delimChar ∉ f) :
    cleanedRecords (encodeListerOutput records) = records.map listerBody := by
  unfold cleanedRecords
  rw [splitChar_encodeListerOutput records h]
  cases records with
  | nil => simp [listerSegments, cleanLines]
  | cons r rest =>
    have hdrop :
        (listerSegments (r :: rest)).dropLast =
          listerBody r :: (rest.map fun r2 => newlineChar :: listerBody r2) := by
      simp only [listerSegments]
      rw [show
        listerBody r :: (rest.map fun r2 => newlineChar :: listerBody r2) ++ [[newlineChar]] =
          (listerBody r :: rest.map fun r2 => newlineChar :: listerBody r2) ++ [[newlineChar]]
        from rfl]
      exact List.dropLast_concat ..
    rw [hdrop]
    simp [cleanLines, List.map_map, Function.comp]

/-! Lemmas about the listing loop. -/

theorem processRecord_of_failure (pid : List Char → Option CommitIdentity)
    (line m : List Char) (h : recordParseFailure pid line = some m) :
    processRecord pid line = .error m := by
  unfold recordParseFailure at h
  unfold processRecord
  cases h5 : pid (piece (splitChar nulChar line) 5) with
  | none =>
    simp only [h5] at h ⊢
    simp at h
    rw [h]
  | some a =>
    cases h6 : pid (piece (splitChar nulChar line) 6) with
    | none =>
      simp only [h5, h6] at h ⊢
      simp at h
      rw [h]
    | some a2 => simp [h5, h6] at h

theorem hasSymref_iff (line : List Char) :
    hasSymref line = true ↔ 0 < (piece (splitChar nulChar line) 7).length := by
  unfold hasSymref
  cases piece (splitChar nulChar line) 7 <;> simp

theorem processRecord_of_success (pid : List Char → Option CommitIdentity)
    (line : List Char) (h : recordParseFailure pid line = none) :
    ∃ b?, processRecord pid line = .ok b? ∧ (b? = none ↔ hasSymref line = true) := by
  unfold recordParseFailure at h
  unfold processRecord
  cases h5 : pid (piece (splitChar nulChar line) 5) with
  | none => simp [h5] at h
  | some a =>
    cases h6 : pid (piece (splitChar nulChar line) 6) with
    | none => simp [h5, h6] at h
    | some a2 =>
      simp only [h5, h6]
      by_cases hsym : 0 < (piece (splitChar nulChar line) 7).length
      · refine ⟨none, ?_, ?_⟩
        · rw [if_pos hsym]
        · simp [hasSymref_iff, hsym]
      · refine
          ⟨some { name := piece (splitChar nulChar line) 1
                  upstream :=
                    if 0 < (piece (splitChar nulChar line) 2).length then
                      some (piece (splitChar nulChar line) 2)
                    else none
                  tip := { sha := piece (splitChar nulChar line) 3, author := a }
                  type :=
                    if localRefPfx.isPrefixOf (piece (splitChar nulChar line) 0) = true then
                      BranchType.Local
                    else BranchType.Remote }, ?_, ?_⟩
        · rw [if_neg hsym]
        · simp [hasSymref_iff, hsym]

theorem collectBranches_ok_count (pid : List Char → Option CommitIdentity) :
    ∀ ls : List (List Char), (∀ l ∈ ls, recordParseFailure pid l = none) →
      ∃ bs, collectBranches pid ls = .ok bs ∧
        bs.length + ls.countP hasSymref = ls.length := by
  intro ls
  induction ls with
  | nil => intro _; exact ⟨[], rfl, by simp⟩
  | cons l rest ih =>
    intro h
    obtain ⟨b?, hb, hiff⟩ := processRecord_of_success pid l (h l (by simp))
    obtain ⟨bs, hbs, hcount⟩ := ih (fun x hx => h x (by simp [hx]))
    cases b? with
    | none =>
      refine ⟨bs, by simp [collectBranches, hb, hbs], ?_⟩
      have hsym : hasSymref l = true := hiff.mp rfl
      simp [List.countP_cons, hsym, List.length_cons]
      omega
    | some b =>
      refine ⟨b :: bs, by simp [collectBranches, hb, hbs], ?_⟩
      have hsym : hasSymref l = false := by
        cases hs : hasSymref l
        · rfl
        · exact absurd (hiff.mpr hs) (by simp)
      simp [List.countP_cons, hsym, List.length_cons]
      omega

theorem collectBranches_error_of_failure (pid : List Char → Option CommitIdentity) :
    ∀ ls : List (List Char), (∃ l ∈ ls, recordParseFailure pid l ≠ none) →
      ∃ l ∈ ls, ∃ m, recordParseFailure pid l = some m ∧
        collectBranches pid ls = .error m := by
  intro ls
  induction ls with
  | nil =>
    rintro ⟨l, hl, _⟩
    exact absurd hl (List.not_mem_nil l)
  | cons a rest ih =>
    rintro ⟨l, hl, hf⟩
    cases hfa : recordParseFailure pid a with
    | some m =>
      exact ⟨a, by simp, m, hfa, by
        simp [collectBranches, processRecord_of_failure pid a m hfa]⟩
    | none =>
      have hrest : ∃ x ∈ rest, recordParseFailure pid x ≠ none := by
        rcases List.mem_cons.mp hl with rfl | hmem
        · exact absurd hfa hf
        · exact ⟨l, hmem, hf⟩
      obtain ⟨x, hx, m, hm, hcol⟩ := ih hrest
      obtain ⟨b?, hb, _⟩ := processRecord_of_success pid a hfa
      exact ⟨x, by simp [hx], m, hm, by simp [collectBranches, hb, hcol]⟩

theorem getBranches_eq_collect (pid : List Char → Option CommitIdentity)
    (result : GitResult) (h : result.gitError = none) :
    getBranches pid result = collectBranches pid (cleanedRecords result.stdout) := by
  unfold getBranches cleanedRecords
  rw [h]
  simp only [reduceCtorEq, if_false]
  split
  next hlen =>
    rw [List.length_eq_zero.mp hlen]
    rfl
  next => rfl

theorem filter_contains_nil (bs : List Branch) :
    bs.filter (fun branch =>
      branch.type == BranchType.Local && List.contains [] branch.name) = [] := by
  induction bs with
  | nil => rfl
  | cons b t ih => simp [List.filter_cons, List.contains, List.elem, ih]

/-! Claim theorems. -/

/-- C1, counterexample: the claim says a record yields kind Local iff its ref
path begins with refs/heads, but the source tests the nine-character string
refs/head, so a record whose ref path is refs/headx/foo is classified Local
even though refs/heads is not a prefix of it. -/
theorem c1_refs_head_prefix_cex :
    ("refs/heads".toList.isPrefixOf "refs/headx/foo".toList = false) ∧
    (getBranches parseIdentitySpec
        { stdout := encodeListerOutput [recHeadx], gitError := none }).map
        (fun bs => bs.map Branch.type) = .ok [BranchType.Local] := by
  exact ⟨by decide, rfl⟩

/-- C1, amended: in both pipelines a record yields kind Local iff its full
ref path begins with the prefix refs/head (nine characters, without the
trailing s); every other record yields kind Remote, and in the divergence
detector a record whose ref path lacks that prefix never joins the local
candidates while a record having it never joins the remote index. -/
theorem c1_local_iff_refs_head_amended (pid : List Char → Option CommitIdentity)
    (line : List Char) (b : Branch) (st : List LocalCandidate × RemoteShaIndex) :
    (processRecord pid line = .ok (some b) →
      ((b.type = BranchType.Local ↔
          localRefPfx.isPrefixOf (piece (splitChar nulChar line) 0) = true) ∧
       (b.type = BranchType.Remote ↔
          localRefPfx.isPrefixOf (piece (splitChar nulChar line) 0) = false))) ∧
    (localRefPfx.isPrefixOf (piece (splitChar nulChar line) 0) = true →
      (partitionStep st line).2 = st.2) ∧
    (localRefPfx.isPrefixOf (piece (splitChar nulChar line) 0) = false →
      (partitionStep st line).1 = st.1) := by
  refine ⟨?_, ?_, ?_⟩
  · intro hp
    unfold processRecord at hp
    cases h5 : pid (piece (splitChar nulChar line) 5) with
    | none => simp [h5] at hp
    | some a =>
      cases h6 : pid (piece (splitChar nulChar line) 6) with
      | none => simp [h5, h6] at hp
      | some a2 =>
        simp only [h5, h6] at hp
        by_cases hsym : 0 < (piece (splitChar nulChar line) 7).length
        · rw [if_pos hsym] at hp
          simp at hp
        · rw [if_neg hsym] at hp
          simp only [Except.ok.injEq, Option.some.injEq] at hp
          subst hp
          by_cases hpfx : localRefPfx.isPrefixOf (piece (splitChar nulChar line) 0) = true
          · simp [hpfx]
          · simp only [Bool.not_eq_true] at hpfx
            simp [hpfx]
  · intro hpfx
    unfold partitionStep
    by_cases hskip :
        0 < (piece (splitChar nulChar line) 4).length ∨
          piece (splitChar nulChar line) 5 = starMark
    · simp [hskip]
    · by_cases hup : (piece (splitChar nulChar line) 3).length = 0
      · simp [hskip, hpfx, hup]
      · simp [hskip, hpfx, hup]
  · intro hpfx
    unfold partitionStep
    by_cases hskip :
        0 < (piece (splitChar nulChar line) 4).length ∨
          piece (splitChar nulChar line) 5 = starMark
    · simp [hskip]
    · simp [hskip, hpfx]

/-- Witness for the amended C1 theorem at a concrete local record. -/
theorem c1_local_iff_refs_head_amended_witness :
    (processRecord parseIdentitySpec (listerBody recMain) = .ok (some branchMain)) ∧
    (branchMain.type = BranchType.Local ↔
      localRefPfx.isPrefixOf (piece (splitChar nulChar (listerBody recMain)) 0) = true) ∧
    (localRefPfx.isPrefixOf (piece (splitChar nulChar (listerBody recMain)) 0) = true) ∧
    ((partitionStep ([], []) (listerBody recMain)).2 = ([] : RemoteShaIndex)) :=
  ⟨rfl,
   ((c1_local_iff_refs_head_amended parseIdentitySpec (listerBody recMain) branchMain
      ([], [])).1 rfl).1,
   by decide,
   (c1_local_iff_refs_head_amended parseIdentitySpec (listerBody recMain) branchMain
      ([], [])).2.1 (by decide)⟩

/-- C2: whenever some cleaned record of a listing response has an author or
committer identity field that fails to parse, getBranches returns an error
whose message is the author or the committer diagnostic built from the short
object id of a failing record, and no branch list is produced. -/
theorem c2_identity_parse_failure_aborts (pid : List Char → Option CommitIdentity)
    (result : GitResult) (h : result.gitError = none)
    (hfail : ∃ l ∈ cleanedRecords result.stdout, recordParseFailure pid l ≠ none) :
    ∃ l ∈ cleanedRecords result.stdout, ∃ m,
      recordParseFailure pid l = some m ∧
      (m = authorErrMsg (piece (splitChar nulChar l) 4) ∨
       m = committerErrMsg (piece (splitChar nulChar l) 4)) ∧
      getBranches pid result = .error m := by
  obtain ⟨l, hl, m, hm, hcol⟩ := collectBranches_error_of_failure pid _ hfail
  refine ⟨l, hl, m, hm, ?_, ?_⟩
  · unfold recordParseFailure at hm
    cases h5 : pid (piece (splitChar nulChar l) 5) with
    | none =>
      simp [h5] at hm
      exact Or.inl hm.symm
    | some a =>
      cases h6 : pid (piece (splitChar nulChar l) 6) with
      | none =>
        simp [h5, h6] at hm
        exact Or.inr hm.symm
      | some a2 => simp [h5, h6] at hm
  · rw [getBranches_eq_collect pid result h, hcol]

/-- Witness for C2 at a concrete response containing a record with an
unparseable author field. -/
theorem c2_identity_parse_failure_aborts_witness :
    (({ stdout := encodeListerOutput [recMain, recBadAuthor],
        gitError := none } : GitResult).gitError = none) ∧
    (∃ l ∈ cleanedRecords (encodeListerOutput [recMain, recBadAuthor]),
      recordParseFailure parseIdentitySpec l ≠ none) ∧
    (∃ l ∈ cleanedRecords (encodeListerOutput [recMain, recBadAuthor]), ∃ m,
      recordParseFailure parseIdentitySpec l = some m ∧
      (m = authorErrMsg (piece (splitChar nulChar l) 4) ∨
       m = committerErrMsg (piece (splitChar nulChar l) 4)) ∧
      getBranches parseIdentitySpec
        { stdout := encodeListerOutput [recMain, recBadAuthor],
          gitError := none } = .error m) :=
  ⟨rfl, by decide,
   c2_identity_parse_failure_aborts parseIdentitySpec
     { stdout := encodeListerOutput [recMain, recBadAuthor], gitError := none }
     rfl (by decide)⟩

/-- C3: a candidate name is marked divergent by the second pass iff some
local candidate with that name has its upstream ref path present in the
remote-SHA index with a SHA different from its own; an absent upstream
contributes nothing (and the pass is a total function, so no error exists). -/
theorem c3_divergent_iff_sha_differs (n : List Char)
    (cands : List LocalCandidate) (idx : RemoteShaIndex) :
    n ∈ eligibleNames cands idx ↔
      ∃ c ∈ cands, c.name = n ∧
        ∃ s, List.lookup c.upstream idx = some s ∧ s ≠ c.sha := by
  unfold eligibleNames
  rw [List.mem_filterMap]
  constructor
  · rintro ⟨c, hc, hval⟩
    cases hl : List.lookup c.upstream idx with
    | none => simp [hl] at hval
    | some s =>
      by_cases hs : s = c.sha
      · simp [hl, hs] at hval
      · rw [hl] at hval
        simp only [ne_eq, hs, not_false_iff, if_true] at hval
        simp at hval
        exact ⟨c, hc, hval, s, hl, hs⟩
  · rintro ⟨c, hc, rfl, s, hl, hs⟩
    exact ⟨c, hc, by simp [hl, hs]⟩

/-- C4: the list returned by getBranchesDifferingFromUpstream is exactly the
filter of the caller-supplied branches to those of Local kind whose name is
in the divergent-name set, and hence a sublist of the input, so every
returned Branch is one of the supplied Branch values in input order. -/
theorem c4_result_is_filter_of_known (result : GitResult)
    (allBranches : List Branch) :
    getBranchesDifferingFromUpstream result allBranches =
      allBranches.filter (fun branch =>
        branch.type == BranchType.Local &&
          (divergentNames result).contains branch.name) ∧
    (getBranchesDifferingFromUpstream result allBranches).Sublist allBranches := by
  have hmain :
      getBranchesDifferingFromUpstream result allBranches =
        allBranches.filter (fun branch =>
          branch.type == BranchType.Local &&
            (divergentNames result).contains branch.name) := by
    unfold getBranchesDifferingFromUpstream divergentNames
    by_cases h1 : result.gitError = some GitError.NotAGitRepository
    · simp only [if_pos h1]
      exact (filter_contains_nil allBranches).symm
    · simp only [if_neg h1]
      by_cases h2 : ((splitChar newlineChar result.stdout).dropLast).length = 0
      · simp only [if_pos h2]
        exact (filter_contains_nil allBranches).symm
      · simp only [if_neg h2]
        by_cases h3 :
            eligibleNames
              (((splitChar newlineChar result.stdout).dropLast).foldl
                partitionStep ([], [])).1
              (((splitChar newlineChar result.stdout).dropLast).foldl
                partitionStep ([], [])).2 = []
        · rw [if_pos h3, h3]
          exact (filter_contains_nil allBranches).symm
        · rw [if_neg h3]
  exact ⟨hmain, by rw [hmain]; exact List.filter_sublist allBranches⟩

/-- C5: when the for-each-ref invocation reports the not-a-repository error
kind, both pipelines return the empty list and raise no error. -/
theorem c5_not_a_repository_empty (pid : List Char → Option CommitIdentity)
    (result : GitResult) (allBranches : List Branch)
    (h : result.gitError = some GitError.NotAGitRepository) :
    getBranches pid result = .ok [] ∧
    getBranchesDifferingFromUpstream result allBranches = [] := by
  constructor <;> simp [getBranches, getBranchesDifferingFromUpstream, h]

/-- Witness for C5 at a concrete result carrying the recognised error. -/
theorem c5_not_a_repository_empty_witness :
    (({ stdout := "irrelevant".toList,
        gitError := some GitError.NotAGitRepository } : GitResult).gitError =
      some GitError.NotAGitRepository) ∧
    getBranches parseIdentitySpec
      { stdout := "irrelevant".toList,
        gitError := some GitError.NotAGitRepository } = .ok [] ∧
    getBranchesDifferingFromUpstream
      { stdout := "irrelevant".toList,
        gitError := some GitError.NotAGitRepository } [branchFeature] = [] :=
  ⟨rfl,
   (c5_not_a_repository_empty parseIdentitySpec _ [branchFeature] rfl).1,
   (c5_not_a_repository_empty parseIdentitySpec _ [branchFeature] rfl).2⟩

/-- C6: the partitioning pass of the divergence detector leaves its state
unchanged on a record marked as the current checkout, whatever its SHAs, and
on a local-namespace record whose upstream field is empty. -/
theorem c6_skip_current_and_no_upstream
    (st : List LocalCandidate × RemoteShaIndex) (line : List Char) :
    (piece (splitChar nulChar line) 5 = starMark → partitionStep st line = st) ∧
    (localRefPfx.isPrefixOf (piece (splitChar nulChar line) 0) = true ∧
        piece (splitChar nulChar line) 3 = [] →
      partitionStep st line = st) := by
  constructor
  · intro hhead
    unfold partitionStep
    simp [hhead]
  · rintro ⟨hpfx, hup⟩
    unfold partitionStep
    by_cases hskip :
        0 < (piece (splitChar nulChar line) 4).length ∨
          piece (splitChar nulChar line) 5 = starMark
    · simp [hskip]
    · simp [hskip, hpfx, hup]

/-- Witness for C6 at a concrete current-checkout record and a concrete
local record without upstream. -/
theorem c6_skip_current_and_no_upstream_witness :
    (piece (splitChar nulChar (encodeDetectorLine detCurrent)) 5 = starMark) ∧
    partitionStep ([], []) (encodeDetectorLine detCurrent) = ([], []) ∧
    (localRefPfx.isPrefixOf
        (piece (splitChar nulChar (encodeDetectorLine detNoUpstream)) 0) = true ∧
      piece (splitChar nulChar (encodeDetectorLine detNoUpstream)) 3 = []) ∧
    partitionStep ([], []) (encodeDetectorLine detNoUpstream) = ([], []) :=
  ⟨by decide,
   (c6_skip_current_and_no_upstream ([], []) (encodeDetectorLine detCurrent)).1
     (by decide),
   by decide,
   (c6_skip_current_and_no_upstream ([], []) (encodeDetectorLine detNoUpstream)).2
     ⟨by decide, by decide⟩⟩

/-- C7, counterexample: a cleaned record of a well-formed response does not
split into exactly 8 positional fields; splitting on the NUL separator yields
9 segments, because the format string places a NUL between the last field and
the record sentinel. -/
theorem c7_eight_fields_cex :
    cleanedRecords (encodeListerOutput [recMain]) = [listerBody recMain] ∧
    (splitChar nulChar (listerBody recMain)).length = 9 ∧
    ¬((splitChar nulChar (listerBody recMain)).length = 8) :=
  ⟨rfl, rfl, by decide⟩

/-- C7, amended: each cleaned record of a well-formed response splits on the
NUL field separator into 9 segments, namely the 8 positional fields followed
by one empty trailing segment. -/
theorem c7_nine_segments_amended (records : List (List (List Char)))
    (hlen : ∀ fields ∈ records, fields.length = 8)
    (hchars : ∀ fields ∈ records, ∀ f ∈ fields, nulChar ∉ f ∧ delimChar ∉ f) :
    ∀ l ∈ cleanedRecords (encodeListerOutput records),
      ∃ fields ∈ records,
        splitChar nulChar l = fields ++ [[]] ∧ (splitChar nulChar l).length = 9 := by
  rw [cleanedRecords_encodeListerOutput records
    (fun fs hfs f hf => (hchars fs hfs f hf).2)]
  intro l hl
  rw [List.mem_map] at hl
  obtain ⟨fields, hfs, rfl⟩ := hl
  have hne : fields ≠ [] := by
    intro h0
    have := hlen fields hfs
    rw [h0] at this
    simp at this
  have hsplit :=
    splitChar_listerBody fields hne (fun f hf => (hchars fields hfs f hf).1)
  refine ⟨fields, hfs, hsplit, ?_⟩
  rw [hsplit]
  simp [hlen fields hfs]

/-- Witness for the amended C7 theorem at a concrete two-record response. -/
theorem c7_nine_segments_amended_witness :
    (∀ fields ∈ [recMain, recSym], fields.length = 8) ∧
    (∀ fields ∈ [recMain, recSym], ∀ f ∈ fields, nulChar ∉ f ∧ delimChar ∉ f) ∧
    (∀ l ∈ cleanedRecords (encodeListerOutput [recMain, recSym]),
      ∃ fields ∈ [recMain, recSym],
        splitChar nulChar l = fields ++ [[]] ∧ (splitChar nulChar l).length = 9) :=
  ⟨by decide, by decide,
   c7_nine_segments_amended [recMain, recSym] (by decide) (by decide)⟩

/-- C8: for a response whose cleaned records all have parseable author and
committer fields, getBranches succeeds and returns as many branches as there
are cleaned records minus those with a non-empty symbolic-ref field. -/
theorem c8_output_count (pid : List Char → Option CommitIdentity)
    (result : GitResult) (h : result.gitError = none)
    (hok : ∀ l ∈ cleanedRecords result.stdout, recordParseFailure pid l = none) :
    ∃ bs, getBranches pid result = .ok bs ∧
      bs.length =
        (cleanedRecords result.stdout).length -
          (cleanedRecords result.stdout).countP hasSymref := by
  obtain ⟨bs, hbs, hcount⟩ := collectBranches_ok_count pid _ hok
  refine ⟨bs, ?_, ?_⟩
  · rw [getBranches_eq_collect pid result h, hbs]
  · omega

/-- Witness for C8 at a concrete three-record response with one symbolic
ref. -/
theorem c8_output_count_witness :
    (({ stdout := encodeListerOutput [recMain, recSym, recDev],
        gitError := none } : GitResult).gitError = none) ∧
    (∀ l ∈ cleanedRecords (encodeListerOutput [recMain, recSym, recDev]),
      recordParseFailure parseIdentitySpec l = none) ∧
    (∃ bs, getBranches parseIdentitySpec
        { stdout := encodeListerOutput [recMain, recSym, recDev],
          gitError := none } = .ok bs ∧
      bs.length =
        (cleanedRecords (encodeListerOutput [recMain, recSym, recDev])).length -
          (cleanedRecords (encodeListerOutput [recMain, recSym, recDev])).countP
            hasSymref) :=
  ⟨rfl, by decide,
   c8_output_count parseIdentitySpec
     { stdout := encodeListerOutput [recMain, recSym, recDev], gitError := none }
     rfl (by decide)⟩

/-- C9: identities are parsed before the symbolic-ref field is examined, so
a record with a non-empty symbolic-ref field and an unparseable author field
aborts the whole listing even though the record would have been excluded from
the output. -/
theorem c9_parse_before_symref :
    (0 < (piece (splitChar nulChar (listerBody recSymBadAuthor)) 7).length) ∧
    parseIdentitySpec (piece (splitChar nulChar (listerBody recSymBadAuthor)) 5) =
      none ∧
    getBranches parseIdentitySpec
        { stdout := encodeListerOutput [recSymBadAuthor], gitError := none } =
      .error (authorErrMsg "fff6".toList) :=
  ⟨by decide, by decide, rfl⟩

/-- C10: both operations unconditionally drop the final split segment, so a
response that does not end with the record sentinel (lister) or the newline
(detector) silently loses its last genuine record: appending the missing
terminator brings the record back. -/
theorem c10_trailing_segment_dropped :
    ((listerBody recMain ++ [delimChar, newlineChar] ++ listerBody recDev).getLast? ≠
      some delimChar) ∧
    (getBranches parseIdentitySpec
        { stdout := listerBody recMain ++ [delimChar, newlineChar] ++ listerBody recDev,
          gitError := none }).map (fun bs => bs.map Branch.name) =
      .ok ["main".toList] ∧
    (getBranches parseIdentitySpec
        { stdout :=
            listerBody recMain ++ [delimChar, newlineChar] ++ listerBody recDev ++
              [delimChar],
          gitError := none }).map (fun bs => bs.map Branch.name) =
      .ok ["main".toList, "dev".toList] ∧
    ((encodeDetectorLine detRemoteFeature ++ [newlineChar] ++
        encodeDetectorLine detLocalFeature).getLast? ≠ some newlineChar) ∧
    getBranchesDifferingFromUpstream
      { stdout :=
          encodeDetectorLine detRemoteFeature ++ [newlineChar] ++
            encodeDetectorLine detLocalFeature,
        gitError := none } [branchFeature] = [] ∧
    getBranchesDifferingFromUpstream
      { stdout :=
          encodeDetectorLine detRemoteFeature ++ [newlineChar] ++
            encodeDetectorLine detLocalFeature ++ [newlineChar],
        gitError := none } [branchFeature] = [branchFeature] :=
  ⟨by decide, rfl, rfl, by decide, rfl, rfl⟩

